import Mathlib

/-!
Verification of the aprsd in-memory packet stores, shallowly embedded from
`src/aprsd/packets/packet_list.py` (PacketList, the spec's PacketStore),
`src/aprsd/packets/tracker.py` (PacketTrack, the spec's PacketTracker) and
`src/aprsd/packets/collector.py` (PacketCollector, the spec's Collector).

Python dictionaries (`OrderedDict` for the cache, plain insertion-ordered
`dict` elsewhere) are embedded as association lists `List (Nat × Packet)`
in insertion order; keys and message numbers are opaque identifiers
embedded as `Nat`.  The external collaborators (`seen_list.SeenList`,
the `objectstore` persistence mixin, logging) hold no state of these
stores and are omitted.
-/

namespace Aprsd

/-- Packet class discriminator: `packet.__class__` in the source.
`isinstance(packet, core.AckPacket)` / `core.RejectPacket` checks become
equality with `ackPacket` / `rejectPacket`; the per-type statistics key
`packet.__class__.__name__` becomes the discriminator itself. -/
inductive PacketClass where
  | ackPacket
  | rejectPacket
  | messagePacket
  | gpsPacket
  deriving DecidableEq, Repr

/-- The packet record, as consumed by this core (`aprsd.packets.core`).
`ackMsgNo = none` embeds a falsy (absent) piggyback-ack reference. -/
structure Packet where
  key : Nat
  cls : PacketClass
  msgNo : Nat
  ackMsgNo : Option Nat
  send_count : Nat
  retry_count : Nat
  deriving DecidableEq, Repr

/-- Per-type rx/tx counters: the `{"tx": 0, "rx": 0}` record of
`PacketList.rx` / `PacketList.tx`. -/
structure TypeCount where
  rx : Nat
  tx : Nat
  deriving DecidableEq, Repr

/-- State of `PacketList`: `_maxlen`, `data["packets"]` (the
`OrderedDict` cache), `data["types"]`, `_total_rx`, `_total_tx`. -/
structure PacketList where
  maxlen : Nat
  packets : List (Nat × Packet)
  types : List (PacketClass × TypeCount)
  total_rx : Nat
  total_tx : Nat
  deriving DecidableEq, Repr

/-- The state built by `PacketList.__new__`: empty cache, empty type
stats, zero totals, capacity `c` (the source fixes `cls._maxlen = 100`). -/
def emptyPL (c : Nat) : PacketList :=
  { maxlen := c, packets := [], types := [], total_rx := 0, total_tx := 0 }

/-- `PacketList._add`: if the key is cached, `move_to_end` then overwrite
(embedded as: drop the old entry, append the new one); else if the cache
is full, `popitem(last=False)` (drop the oldest, i.e. the head) and
append; else just append.  The most-recent end is the list's tail end. -/
def PacketList.addCache (st : PacketList) (p : Packet) : PacketList :=
  if st.packets.any (fun e => e.1 == p.key) then
    { st with packets := st.packets.filter (fun e => !(e.1 == p.key)) ++ [(p.key, p)] }
  else if st.packets.length == st.maxlen then
    { st with packets := st.packets.tail ++ [(p.key, p)] }
  else
    { st with packets := st.packets ++ [(p.key, p)] }

/-- The `if not ptype in self.data["types"]` initialisation step shared by
`PacketList.rx` and `PacketList.tx`. -/
def ensureType (ts : List (PacketClass × TypeCount)) (c : PacketClass) :
    List (PacketClass × TypeCount) :=
  if ts.any (fun e => e.1 == c) then ts else ts ++ [(c, ⟨0, 0⟩)]

/-- `self.data["types"][ptype]["rx"] += 1` after the initialisation step. -/
def bumpTypeRx (ts : List (PacketClass × TypeCount)) (c : PacketClass) :
    List (PacketClass × TypeCount) :=
  (ensureType ts c).map (fun e => if e.1 == c then (e.1, ⟨e.2.rx + 1, e.2.tx⟩) else e)

/-- `self.data["types"][ptype]["tx"] += 1` after the initialisation step. -/
def bumpTypeTx (ts : List (PacketClass × TypeCount)) (c : PacketClass) :
    List (PacketClass × TypeCount) :=
  (ensureType ts c).map (fun e => if e.1 == c then (e.1, ⟨e.2.rx, e.2.tx + 1⟩) else e)

/-- `PacketList.rx`: bump `_total_rx`, `_add` the packet, bump the
per-type rx counter (the trailing `SeenList().update_seen` call touches
only the external seen-list collaborator). -/
def PacketList.rx (st : PacketList) (p : Packet) : PacketList :=
  let st1 := { st with total_rx := st.total_rx + 1 }
  let st2 := st1.addCache p
  { st2 with types := bumpTypeRx st2.types p.cls }

/-- `PacketList.tx`: bump `_total_tx`, `_add` the packet, bump the
per-type tx counter. -/
def PacketList.tx (st : PacketList) (p : Packet) : PacketList :=
  let st1 := { st with total_tx := st.total_tx + 1 }
  let st2 := st1.addCache p
  { st2 with types := bumpTypeTx st2.types p.cls }

/-- `PacketList.add`: cache insert/refresh only. -/
def PacketList.add (st : PacketList) (p : Packet) : PacketList :=
  st.addCache p

/-- `PacketList.find`: lookup by `packet.key`; a `KeyError` on an absent
key is embedded as `none`. -/
def PacketList.find (st : PacketList) (p : Packet) : Option Packet :=
  (st.packets.find? (fun e => e.1 == p.key)).map (fun e => e.2)

/-- The dictionary returned by `PacketList.stats`. -/
structure PLStats where
  total_tracked : Nat
  rx : Nat
  tx : Nat
  types : List (PacketClass × TypeCount)
  packets : List (Nat × Packet)
  deriving DecidableEq, Repr

/-- `PacketList.stats`: note the source computes `total_tracked` as
`self._total_rx + self._total_rx`. -/
def PacketList.stats (st : PacketList) : PLStats :=
  { total_tracked := st.total_rx + st.total_rx
    rx := st.total_rx
    tx := st.total_tx
    types := st.types
    packets := st.packets }

/-- One public mutating call on `PacketList`. -/
inductive PLOp where
  | rx (p : Packet)
  | tx (p : Packet)
  | add (p : Packet)
  deriving DecidableEq, Repr

/-- The packet carried by a `PLOp`. -/
def PLOp.packet : PLOp → Packet
  | .rx p => p
  | .tx p => p
  | .add p => p

/-- Whether a `PLOp` is an `rx` call. -/
def PLOp.isRx : PLOp → Bool
  | .rx _ => true
  | _ => false

/-- Whether a `PLOp` is a `tx` call. -/
def PLOp.isTx : PLOp → Bool
  | .tx _ => true
  | _ => false

/-- Execute one `PacketList` call. -/
def plStep (st : PacketList) : PLOp → PacketList
  | .rx p => st.rx p
  | .tx p => st.tx p
  | .add p => st.add p

/-- Execute a sequence of `PacketList` calls in order. -/
def plRun (st : PacketList) (ops : List PLOp) : PacketList :=
  ops.foldl plStep st

/-! ## PacketTrack -/

/-- State of `PacketTrack`: `data` (the msgNo-keyed dict of in-flight
packets, in insertion order) and `total_tracked`. -/
structure PacketTrack where
  data : List (Nat × Packet)
  total_tracked : Nat
  deriving DecidableEq, Repr

/-- The state built by `PacketTrack.__new__` / `_init_store`. -/
def trEmpty : PacketTrack :=
  { data := [], total_tracked := 0 }

/-- Python dict assignment `d[k] = v`: overwrite in place if the key is
present (keeping its position), else append at the end. -/
def dictInsert (d : List (Nat × Packet)) (k : Nat) (v : Packet) :
    List (Nat × Packet) :=
  if d.any (fun e => e.1 == k) then
    d.map (fun e => if e.1 == k then (k, v) else e)
  else
    d ++ [(k, v)]

/-- Python `del d[k]` with the `KeyError` swallowed
(`PacketTrack._remove`): remove the entry if present, else no-op. -/
def dictDelete (d : List (Nat × Packet)) (k : Nat) : List (Nat × Packet) :=
  d.filter (fun e => !(e.1 == k))

/-- `PacketTrack._remove`. -/
def PacketTrack.removeKey (st : PacketTrack) (k : Nat) : PacketTrack :=
  { st with data := dictDelete st.data k }

/-- `PacketTrack.rx`: an `AckPacket` or `RejectPacket` removes the entry
keyed by its own `msgNo`; otherwise a truthy `ackMsgNo` (piggyback ack)
removes the entry it references; otherwise nothing happens. -/
def PacketTrack.rx (st : PacketTrack) (p : Packet) : PacketTrack :=
  if p.cls = .ackPacket then st.removeKey p.msgNo
  else if p.cls = .rejectPacket then st.removeKey p.msgNo
  else
    match p.ackMsgNo with
    | some a => st.removeKey a
    | none => st

/-- `PacketTrack.tx`: set `packet.send_count = 0`, store it under
`packet.msgNo`, bump `total_tracked`. -/
def PacketTrack.tx (st : PacketTrack) (p : Packet) : PacketTrack :=
  { st with
    data := dictInsert st.data p.msgNo { p with send_count := 0 }
    total_tracked := st.total_tracked + 1 }

/-- `PacketTrack.get`: `self.data.get(key, None)`. -/
def PacketTrack.get (st : PacketTrack) (k : Nat) : Option Packet :=
  (st.data.find? (fun e => e.1 == k)).map (fun e => e.2)

/-- `PacketTrack.remove`. -/
def PacketTrack.remove (st : PacketTrack) (k : Nat) : PacketTrack :=
  st.removeKey k

/-- One public mutating call on `PacketTrack`. -/
inductive TrOp where
  | tx (p : Packet)
  | rx (p : Packet)
  | remove (k : Nat)
  deriving DecidableEq, Repr

/-- Whether a `TrOp` is a `tx` call. -/
def TrOp.isTx : TrOp → Bool
  | .tx _ => true
  | _ => false

/-- Execute one `PacketTrack` call. -/
def trStep (st : PacketTrack) : TrOp → PacketTrack
  | .tx p => st.tx p
  | .rx p => st.rx p
  | .remove k => st.remove k

/-- Execute a sequence of `PacketTrack` calls in order. -/
def trRun (st : PacketTrack) (ops : List TrOp) : PacketTrack :=
  ops.foldl trStep st

/-! ## PacketCollector -/

/-- A registered observer factory, described by the instance it
constructs: an identity and whether the instance exposes `rx` / `tx`
(the `PacketMonitor` protocol methods). -/
structure Monitor where
  id : Nat
  hasRx : Bool
  hasTx : Bool
  deriving DecidableEq, Repr

/-- `isinstance(cls, PacketMonitor)`: the runtime-checkable protocol
holds exactly when both `rx` and `tx` are exposed. -/
def isPacketMonitor (m : Monitor) : Bool :=
  m.hasRx && m.hasTx

/-- `PacketCollector.rx`: walk the registration list in order,
instantiate each factory, dispatch `rx` to compliant instances; a
non-compliant instance raises `TypeError`, aborting the walk.  The
result is the trace of `(monitor id, packet)` invocations actually made,
paired with `some id` of the offending factory when the call raised. -/
def collectorRx : List Monitor → Packet → List (Nat × Packet) × Option Nat
  | [], _ => ([], none)
  | m :: rest, p =>
    if isPacketMonitor m then
      let r := collectorRx rest p
      ((m.id, p) :: r.1, r.2)
    else
      ([], some m.id)

/-- `PacketCollector.tx`: identical walk dispatching `tx`. -/
def collectorTx : List Monitor → Packet → List (Nat × Packet) × Option Nat
  | [], _ => ([], none)
  | m :: rest, p =>
    if isPacketMonitor m then
      let r := collectorTx rest p
      ((m.id, p) :: r.1, r.2)
    else
      ([], some m.id)

/-! ## Locking surface

Which public operations of the three stores are wrapped in
`@wrapt.synchronized(lock)` in the source. -/

/-- The public operations of the three stores. -/
inductive PublicOp where
  | plRx | plTx | plAdd | plCopy | plMaxlen | plFind | plLen
  | plTotalRx | plTotalTx | plStats
  | pcRegister | pcRx | pcTx
  | ptGetItem | ptIter | ptKeys | ptItems | ptValues | ptStats | ptLen
  | ptRx | ptTx | ptGet | ptRemove
  deriving DecidableEq, Repr

/-- Read off the decorators: `PacketList.copy`, `PacketList.maxlen`,
`PacketList.__len__` and every `PacketCollector` method carry no
`@wrapt.synchronized(lock)`; everything else does. -/
def acquiresLock : PublicOp → Bool
  | .plCopy | .plMaxlen | .plLen => false
  | .pcRegister | .pcRx | .pcTx => false
  | _ => true

/-! ## Helper lemmas: the PacketList cache -/

theorem length_filter_lt_of_any {d : List (Nat × Packet)} {k : Nat}
    (h : d.any (fun e => e.1 == k) = true) :
    (d.filter (fun e => !(e.1 == k))).length < d.length := by
  induction d with
  | nil => simp at h
  | cons e rest ih =>
    by_cases hk : e.1 = k
    · have h1 : List.filter (fun e => !(e.1 == k)) (e :: rest) =
          List.filter (fun e => !(e.1 == k)) rest := by
        simp [List.filter_cons, hk]
      rw [h1]
      exact Nat.lt_succ_of_le (List.length_filter_le _ _)
    · have h1 : List.filter (fun e => !(e.1 == k)) (e :: rest) =
          e :: List.filter (fun e => !(e.1 == k)) rest := by
        simp [List.filter_cons, hk]
      have h2 : rest.any (fun e => e.1 == k) = true := by
        simp only [List.any_cons, Bool.or_eq_true, beq_iff_eq, hk, false_or] at h
        exact h
      rw [h1]
      simpa using Nat.succ_lt_succ (ih h2)

theorem addCache_maxlen (st : PacketList) (p : Packet) :
    (st.addCache p).maxlen = st.maxlen := by
  unfold PacketList.addCache
  split
  · rfl
  · split <;> rfl

theorem addCache_length_le (st : PacketList) (p : Packet)
    (h0 : 0 < st.maxlen) (h : st.packets.length ≤ st.maxlen) :
    (st.addCache p).packets.length ≤ st.maxlen := by
  unfold PacketList.addCache
  split
  · rename_i hmem
    simp only [List.length_append, List.length_cons, List.length_nil]
    have := length_filter_lt_of_any hmem
    omega
  · split
    · rename_i hfull
      simp only [beq_iff_eq] at hfull
      have hpos : 0 < st.packets.length := by omega
      simp only [List.length_append, List.length_tail, List.length_cons, List.length_nil]
      omega
    · rename_i hfull
      simp only [beq_iff_eq] at hfull
      simp only [List.length_append, List.length_cons, List.length_nil]
      omega

theorem addCache_packets_congr (st st' : PacketList) (p : Packet)
    (hp : st.packets = st'.packets) (hm : st.maxlen = st'.maxlen) :
    (st.addCache p).packets = (st'.addCache p).packets := by
  unfold PacketList.addCache
  rw [hp, hm]
  split
  · rfl
  · split <;> rfl

theorem plStep_packets (st : PacketList) (op : PLOp) :
    (plStep st op).packets = (st.addCache op.packet).packets := by
  cases op with
  | rx p => exact addCache_packets_congr _ _ p rfl rfl
  | tx p => exact addCache_packets_congr _ _ p rfl rfl
  | add p => rfl

theorem plStep_maxlen (st : PacketList) (op : PLOp) :
    (plStep st op).maxlen = st.maxlen := by
  cases op <;>
    simp [plStep, PacketList.rx, PacketList.tx, PacketList.add, addCache_maxlen]

theorem plRun_maxlen (ops : List PLOp) (st : PacketList) :
    (plRun st ops).maxlen = st.maxlen := by
  induction ops generalizing st with
  | nil => rfl
  | cons op rest ih =>
    show (plRun (plStep st op) rest).maxlen = st.maxlen
    rw [ih, plStep_maxlen]

theorem plRun_length_le (ops : List PLOp) (st : PacketList)
    (h0 : 0 < st.maxlen) (h : st.packets.length ≤ st.maxlen) :
    (plRun st ops).packets.length ≤ st.maxlen := by
  induction ops generalizing st with
  | nil => exact h
  | cons op rest ih =>
    show (plRun (plStep st op) rest).packets.length ≤ st.maxlen
    have hm := plStep_maxlen st op
    have hlen : (plStep st op).packets.length ≤ st.maxlen := by
      rw [plStep_packets]
      exact addCache_length_le st op.packet h0 h
    have := ih (plStep st op) (by omega) (by omega)
    omega

/-! ## Claim theorems (first batch) -/

/-- C1: starting from the empty store with capacity 100 (the value set by
`PacketList.__new__`), the cache never holds more than 100 entries after
any sequence of `rx`, `tx` and `add` calls (every prefix of a call
sequence is itself such a sequence). -/
theorem packet_cache_bounded (ops : List PLOp) :
    (plRun (emptyPL 100) ops).packets.length ≤ 100 :=
  plRun_length_le ops (emptyPL 100) (by decide) (by decide)

/-- C4: `PacketList.stats` reports `total_tracked` as
`total_rx + total_rx` (the documented known-bug, not `rx + tx`), `rx`
and `tx` as the current totals, and includes the per-type counts and the
cache contents. -/
theorem stats_fields (st : PacketList) :
    (st.stats).total_tracked = st.total_rx + st.total_rx ∧
    (st.stats).rx = st.total_rx ∧
    (st.stats).tx = st.total_tx ∧
    (st.stats).types = st.types ∧
    (st.stats).packets = st.packets :=
  ⟨rfl, rfl, rfl, rfl, rfl⟩

/-! ## Helper lemmas: the tracker counter -/

theorem trStep_total_mono (st : PacketTrack) (op : TrOp) :
    st.total_tracked ≤ (trStep st op).total_tracked := by
  cases op with
  | tx p => exact Nat.le_succ _
  | rx p =>
    simp only [trStep, PacketTrack.rx]
    split
    · exact Nat.le_refl _
    · split
      · exact Nat.le_refl _
      · split <;> exact Nat.le_refl _
  | remove k => exact Nat.le_refl _

theorem trStep_total_tx (st : PacketTrack) (op : TrOp) :
    (trStep st op).total_tracked =
      st.total_tracked + (if TrOp.isTx op then 1 else 0) := by
  cases op with
  | tx p => simp [trStep, PacketTrack.tx, TrOp.isTx]
  | rx p =>
    simp only [trStep, PacketTrack.rx, TrOp.isTx, if_false, Nat.add_zero]
    split
    · rfl
    · split
      · rfl
      · split <;> rfl
  | remove k => simp [trStep, PacketTrack.remove, PacketTrack.removeKey, TrOp.isTx]

theorem trRun_total (ops : List TrOp) (st : PacketTrack) :
    (trRun st ops).total_tracked = st.total_tracked + ops.countP TrOp.isTx := by
  induction ops generalizing st with
  | nil => simp [trRun]
  | cons op rest ih =>
    show (trRun (trStep st op) rest).total_tracked = _
    rw [ih, trStep_total_tx, List.countP_cons]
    omega

/-- C8: the tracker's `total_tracked` equals the number of `tx` calls
ever made (overwriting `tx` calls included) after any operation
sequence, and no single operation ever decreases it. -/
theorem total_tracked_counts_tx :
    (∀ ops : List TrOp, (trRun trEmpty ops).total_tracked = ops.countP TrOp.isTx) ∧
    (∀ (st : PacketTrack) (op : TrOp),
      st.total_tracked ≤ (trStep st op).total_tracked) :=
  ⟨fun ops => by rw [trRun_total]; simp [trEmpty], trStep_total_mono⟩

/-- C10: a packet that is neither an `AckPacket` nor a `RejectPacket`
and whose piggyback-ack field is unset leaves the whole tracker state
unchanged under `rx`. -/
theorem rx_frame (st : PacketTrack) (p : Packet)
    (hack : p.cls ≠ .ackPacket) (hrej : p.cls ≠ .rejectPacket)
    (hpig : p.ackMsgNo = none) :
    st.rx p = st := by
  simp [PacketTrack.rx, hack, hrej, hpig]

/-- Witness for C10 at a concrete generic packet. -/
theorem rx_frame_witness :
    Packet.cls ⟨7, .messagePacket, 3, none, 0, 0⟩ ≠ .ackPacket ∧
    Packet.cls ⟨7, .messagePacket, 3, none, 0, 0⟩ ≠ .rejectPacket ∧
    Packet.ackMsgNo ⟨7, .messagePacket, 3, none, 0, 0⟩ = none ∧
    PacketTrack.rx trEmpty ⟨7, .messagePacket, 3, none, 0, 0⟩ = trEmpty :=
  ⟨by decide, by decide, rfl,
    rx_frame trEmpty ⟨7, .messagePacket, 3, none, 0, 0⟩ (by decide) (by decide) rfl⟩

/-! ## Helper lemmas: the tracker dictionary -/

theorem find?_of_any_eq_false {d : List (Nat × Packet)} {k : Nat}
    (h : d.any (fun e => e.1 == k) = false) :
    d.find? (fun e => e.1 == k) = none := by
  apply List.find?_eq_none.mpr
  intro e he
  simp only [List.any_eq_false] at h
  exact h e he

theorem find?_map_overwrite {k : Nat} (v : Packet) :
    ∀ d : List (Nat × Packet), d.any (fun e => e.1 == k) = true →
      ((d.map (fun e => if e.1 == k then (k, v) else e)).find?
        (fun e => e.1 == k)) = some (k, v) := by
  intro d
  induction d with
  | nil => intro h; simp at h
  | cons e rest ih =>
    intro h
    by_cases hk : e.1 = k
    · simp [List.find?_cons, hk]
    · have h2 : rest.any (fun e => e.1 == k) = true := by
        simp only [List.any_cons, Bool.or_eq_true, beq_iff_eq, hk, false_or] at h
        exact h
      have hcond : ((if e.1 == k then (k, v) else e).1 == k) = false := by
        simp [hk]
      rw [List.map_cons, List.find?_cons, hcond]
      exact ih h2

theorem find?_dictInsert (d : List (Nat × Packet)) (k : Nat) (v : Packet) :
    (dictInsert d k v).find? (fun e => e.1 == k) = some (k, v) := by
  unfold dictInsert
  by_cases h : d.any (fun e => e.1 == k) = true
  · rw [if_pos h]
    exact find?_map_overwrite v d h
  · rw [if_neg h, List.find?_append]
    have hn : d.find? (fun e => e.1 == k) = none :=
      find?_of_any_eq_false (Bool.eq_false_iff.mpr h)
    rw [hn]
    simp [List.find?]

theorem find?_dictDelete (d : List (Nat × Packet)) (k : Nat) :
    (dictDelete d k).find? (fun e => e.1 == k) = none := by
  apply List.find?_eq_none.mpr
  intro e he
  unfold dictDelete at he
  simpa using List.of_mem_filter he

/-- C3: after `PacketTrack.tx p`, `get` at `p.msgNo` returns `p` with
`send_count` reset to 0; once an `AckPacket` referencing that message id
passes through `rx`, `get` returns the not-found value `none`. -/
theorem tx_registers_ack_removes (st : PacketTrack) (p a : Packet)
    (hcls : a.cls = PacketClass.ackPacket) (href : a.msgNo = p.msgNo) :
    (st.tx p).get p.msgNo = some { p with send_count := 0 } ∧
    ({ p with send_count := 0 } : Packet).send_count = 0 ∧
    ((st.tx p).rx a).get p.msgNo = none := by
  refine ⟨?_, rfl, ?_⟩
  · unfold PacketTrack.get PacketTrack.tx
    rw [find?_dictInsert]
    rfl
  · have hrx : (st.tx p).rx a = (st.tx p).removeKey p.msgNo := by
      rw [PacketTrack.rx, if_pos hcls, href]
    rw [hrx]
    unfold PacketTrack.get PacketTrack.removeKey
    rw [find?_dictDelete]
    rfl

/-- Witness for C3 at a concrete message packet and matching ack. -/
theorem tx_registers_ack_removes_witness :
    Packet.cls ⟨2, .ackPacket, 5, none, 0, 0⟩ = PacketClass.ackPacket ∧
    Packet.msgNo ⟨2, .ackPacket, 5, none, 0, 0⟩ =
      Packet.msgNo ⟨1, .messagePacket, 5, none, 3, 0⟩ ∧
    (trEmpty.tx ⟨1, .messagePacket, 5, none, 3, 0⟩).get 5 =
      some ⟨1, .messagePacket, 5, none, 0, 0⟩ ∧
    ((trEmpty.tx ⟨1, .messagePacket, 5, none, 3, 0⟩).rx
      ⟨2, .ackPacket, 5, none, 0, 0⟩).get 5 = none := by
  have h := tx_registers_ack_removes trEmpty ⟨1, .messagePacket, 5, none, 3, 0⟩
    ⟨2, .ackPacket, 5, none, 0, 0⟩ rfl rfl
  exact ⟨rfl, rfl, h.1, h.2.2⟩

/-- `PacketTrack._remove` of an absent key leaves the state unchanged. -/
theorem removeKey_absent (st : PacketTrack) (k : Nat)
    (h : st.data.any (fun e => e.1 == k) = false) :
    st.removeKey k = st := by
  have hd : dictDelete st.data k = st.data := by
    unfold dictDelete
    apply List.filter_eq_self.mpr
    intro e he
    simp only [List.any_eq_false] at h
    simpa using h e he
  show { st with data := dictDelete st.data k } = st
  rw [hd]

/-- C6: tracker removal is idempotent on absence: for an untracked key
`k`, an explicit `remove k`, an `AckPacket` referencing `k`, a
`RejectPacket` referencing `k`, or a piggyback ack referencing `k` all
leave the tracker state (entries and counter) entirely unchanged. -/
theorem untracked_removal_noop (st : PacketTrack) (k : Nat)
    (h : st.data.any (fun e => e.1 == k) = false) :
    st.remove k = st ∧
    (∀ p : Packet, p.cls = PacketClass.ackPacket → p.msgNo = k → st.rx p = st) ∧
    (∀ p : Packet, p.cls = PacketClass.rejectPacket → p.msgNo = k → st.rx p = st) ∧
    (∀ p : Packet, p.cls ≠ PacketClass.ackPacket →
      p.cls ≠ PacketClass.rejectPacket → p.ackMsgNo = some k → st.rx p = st) := by
  have hr := removeKey_absent st k h
  refine ⟨hr, ?_, ?_, ?_⟩
  · intro p h1 h2
    rw [PacketTrack.rx, if_pos h1, h2, hr]
  · intro p h1 h2
    have hna : p.cls ≠ PacketClass.ackPacket := by rw [h1]; intro hc; cases hc
    rw [PacketTrack.rx, if_neg hna, if_pos h1, h2, hr]
  · intro p h1 h2 h3
    rw [PacketTrack.rx, if_neg h1, if_neg h2, h3]
    exact hr

/-- Witness for C6 on a tracker holding key 9, removing absent key 5. -/
theorem untracked_removal_noop_witness :
    (PacketTrack.data ⟨[(9, ⟨9, .messagePacket, 9, none, 0, 0⟩)], 1⟩).any
      (fun e => e.1 == 5) = false ∧
    PacketTrack.remove ⟨[(9, ⟨9, .messagePacket, 9, none, 0, 0⟩)], 1⟩ 5 =
      ⟨[(9, ⟨9, .messagePacket, 9, none, 0, 0⟩)], 1⟩ ∧
    PacketTrack.rx ⟨[(9, ⟨9, .messagePacket, 9, none, 0, 0⟩)], 1⟩
      ⟨3, .ackPacket, 5, none, 0, 0⟩ =
      ⟨[(9, ⟨9, .messagePacket, 9, none, 0, 0⟩)], 1⟩ := by
  have h := untracked_removal_noop ⟨[(9, ⟨9, .messagePacket, 9, none, 0, 0⟩)], 1⟩ 5
    (by decide)
  exact ⟨by decide, h.1, h.2.1 ⟨3, .ackPacket, 5, none, 0, 0⟩ rfl rfl⟩

/-! ## Helper lemmas: per-type statistics -/

/-- Lookup of a type's counter record in `data["types"]`. -/
def tyLookup (ts : List (PacketClass × TypeCount)) (t : PacketClass) :
    Option TypeCount :=
  (ts.find? (fun e => e.1 == t)).map (fun e => e.2)

/-- The rx count recorded for type `t` (0 when the record is absent). -/
def tyRx (ts : List (PacketClass × TypeCount)) (t : PacketClass) : Nat :=
  ((tyLookup ts t).map TypeCount.rx).getD 0

/-- The tx count recorded for type `t` (0 when the record is absent). -/
def tyTx (ts : List (PacketClass × TypeCount)) (t : PacketClass) : Nat :=
  ((tyLookup ts t).map TypeCount.tx).getD 0

theorem tyLookup_map_adjust_self (ts : List (PacketClass × TypeCount))
    (c : PacketClass) (g : TypeCount → TypeCount) :
    tyLookup (ts.map (fun e => if e.1 == c then (e.1, g e.2) else e)) c =
      (tyLookup ts c).map g := by
  induction ts with
  | nil => rfl
  | cons e rest ih =>
    by_cases hc : e.1 = c
    · simp [tyLookup, List.find?_cons, hc]
    · have h1 : (if e.1 == c then (e.1, g e.2) else e) = e := by simp [hc]
      have h2 : (e.1 == c) = false := by simp [hc]
      unfold tyLookup
      rw [List.map_cons, h1, List.find?_cons, List.find?_cons, h2]
      exact ih

theorem tyLookup_map_adjust_other (ts : List (PacketClass × TypeCount))
    {c t : PacketClass} (hne : t ≠ c) (g : TypeCount → TypeCount) :
    tyLookup (ts.map (fun e => if e.1 == c then (e.1, g e.2) else e)) t =
      tyLookup ts t := by
  induction ts with
  | nil => rfl
  | cons e rest ih =>
    have hfst : (if e.1 == c then (e.1, g e.2) else e).1 = e.1 := by
      split <;> rfl
    by_cases ht : e.1 = t
    · have hec : (e.1 == c) = false := by
        simp only [beq_eq_false_iff_ne, ne_eq]
        rw [ht]
        exact hne
      have h1 : (if e.1 == c then (e.1, g e.2) else e) = e := by rw [hec]; rfl
      have hcond : (e.1 == t) = true := by simp [ht]
      unfold tyLookup
      rw [List.map_cons, h1, List.find?_cons, List.find?_cons, hcond]
    · have hcond : ((if e.1 == c then (e.1, g e.2) else e).1 == t) = false := by
        rw [hfst]
        simp [ht]
      have hcond2 : (e.1 == t) = false := by simp [ht]
      unfold tyLookup
      rw [List.map_cons, List.find?_cons, List.find?_cons, hcond, hcond2]
      exact ih

theorem tyLookup_ensureType_self (ts : List (PacketClass × TypeCount))
    (c : PacketClass) :
    tyLookup (ensureType ts c) c = some ((tyLookup ts c).getD ⟨0, 0⟩) := by
  unfold ensureType
  by_cases h : ts.any (fun e => e.1 == c) = true
  · rw [if_pos h]
    rcases List.any_eq_true.mp h with ⟨x, hx, hpx⟩
    cases ho : ts.find? (fun e => e.1 == c) with
    | none =>
      exact absurd hpx (List.find?_eq_none.mp ho x hx)
    | some e =>
      unfold tyLookup
      rw [ho]
      rfl
  · rw [if_neg h]
    have h2 : ts.any (fun e => e.1 == c) = false := Bool.eq_false_iff.mpr h
    have hn : ts.find? (fun e => e.1 == c) = none := by
      apply List.find?_eq_none.mpr
      intro x hx
      simp only [List.any_eq_false] at h2
      exact h2 x hx
    unfold tyLookup
    rw [List.find?_append, hn]
    simp [List.find?]

theorem tyLookup_ensureType_other (ts : List (PacketClass × TypeCount))
    {c t : PacketClass} (hne : t ≠ c) :
    tyLookup (ensureType ts c) t = tyLookup ts t := by
  unfold ensureType
  by_cases h : ts.any (fun e => e.1 == c) = true
  · rw [if_pos h]
  · rw [if_neg h]
    unfold tyLookup
    rw [List.find?_append]
    have hct : (c == t) = false := beq_eq_false_iff_ne.mpr (Ne.symm hne)
    have h1 : [(c, (⟨0, 0⟩ : TypeCount))].find? (fun e => e.1 == t) = none := by
      rw [List.find?_cons, hct]
      rfl
    rw [h1]
    simp

theorem tyRx_bumpTypeRx (ts : List (PacketClass × TypeCount)) (c t : PacketClass) :
    tyRx (bumpTypeRx ts c) t =
      if t = c then tyRx ts t + 1 else tyRx ts t := by
  unfold bumpTypeRx
  by_cases htc : t = c
  · subst htc
    rw [if_pos rfl]
    unfold tyRx
    rw [tyLookup_map_adjust_self _ _ (fun v => (⟨v.rx + 1, v.tx⟩ : TypeCount)), tyLookup_ensureType_self]
    cases ho : tyLookup ts t <;> simp [ho, tyRx]
  · rw [if_neg htc]
    unfold tyRx
    rw [tyLookup_map_adjust_other _ htc (fun v => (⟨v.rx + 1, v.tx⟩ : TypeCount)), tyLookup_ensureType_other _ htc]

theorem tyTx_bumpTypeRx (ts : List (PacketClass × TypeCount)) (c t : PacketClass) :
    tyTx (bumpTypeRx ts c) t = tyTx ts t := by
  unfold bumpTypeRx
  by_cases htc : t = c
  · subst htc
    unfold tyTx
    rw [tyLookup_map_adjust_self _ _ (fun v => (⟨v.rx + 1, v.tx⟩ : TypeCount)), tyLookup_ensureType_self]
    cases ho : tyLookup ts t <;> simp [ho, tyTx]
  · unfold tyTx
    rw [tyLookup_map_adjust_other _ htc (fun v => (⟨v.rx + 1, v.tx⟩ : TypeCount)), tyLookup_ensureType_other _ htc]

theorem tyTx_bumpTypeTx (ts : List (PacketClass × TypeCount)) (c t : PacketClass) :
    tyTx (bumpTypeTx ts c) t =
      if t = c then tyTx ts t + 1 else tyTx ts t := by
  unfold bumpTypeTx
  by_cases htc : t = c
  · subst htc
    rw [if_pos rfl]
    unfold tyTx
    rw [tyLookup_map_adjust_self _ _ (fun v => (⟨v.rx, v.tx + 1⟩ : TypeCount)), tyLookup_ensureType_self]
    cases ho : tyLookup ts t <;> simp [ho, tyTx]
  · rw [if_neg htc]
    unfold tyTx
    rw [tyLookup_map_adjust_other _ htc (fun v => (⟨v.rx, v.tx + 1⟩ : TypeCount)), tyLookup_ensureType_other _ htc]

theorem tyRx_bumpTypeTx (ts : List (PacketClass × TypeCount)) (c t : PacketClass) :
    tyRx (bumpTypeTx ts c) t = tyRx ts t := by
  unfold bumpTypeTx
  by_cases htc : t = c
  · subst htc
    unfold tyRx
    rw [tyLookup_map_adjust_self _ _ (fun v => (⟨v.rx, v.tx + 1⟩ : TypeCount)), tyLookup_ensureType_self]
    cases ho : tyLookup ts t <;> simp [ho, tyRx]
  · unfold tyRx
    rw [tyLookup_map_adjust_other _ htc (fun v => (⟨v.rx, v.tx + 1⟩ : TypeCount)), tyLookup_ensureType_other _ htc]

theorem any_of_tyLookup_isSome {ts : List (PacketClass × TypeCount)}
    {t : PacketClass} (h : (tyLookup ts t).isSome = true) :
    ts.any (fun e => e.1 == t) = true := by
  unfold tyLookup at h
  cases ho : ts.find? (fun e => e.1 == t) with
  | none => rw [ho] at h; simp at h
  | some e =>
    exact List.any_eq_true.mpr
      ⟨e, List.mem_of_find?_eq_some ho, (List.find?_eq_some.mp ho).1⟩

theorem bumpTypeRx_mem (ts : List (PacketClass × TypeCount)) (c : PacketClass) :
    (bumpTypeRx ts c).any (fun e => e.1 == c) = true := by
  apply any_of_tyLookup_isSome
  unfold bumpTypeRx
  rw [tyLookup_map_adjust_self _ _ (fun v => (⟨v.rx + 1, v.tx⟩ : TypeCount)), tyLookup_ensureType_self]
  rfl

theorem bumpTypeTx_mem (ts : List (PacketClass × TypeCount)) (c : PacketClass) :
    (bumpTypeTx ts c).any (fun e => e.1 == c) = true := by
  apply any_of_tyLookup_isSome
  unfold bumpTypeTx
  rw [tyLookup_map_adjust_self _ _ (fun v => (⟨v.rx, v.tx + 1⟩ : TypeCount)), tyLookup_ensureType_self]
  rfl

/-! ## Helper lemmas: PacketList counters -/

theorem addCache_types (st : PacketList) (p : Packet) :
    (st.addCache p).types = st.types := by
  unfold PacketList.addCache
  split
  · rfl
  · split <;> rfl

theorem addCache_total_rx (st : PacketList) (p : Packet) :
    (st.addCache p).total_rx = st.total_rx := by
  unfold PacketList.addCache
  split
  · rfl
  · split <;> rfl

theorem addCache_total_tx (st : PacketList) (p : Packet) :
    (st.addCache p).total_tx = st.total_tx := by
  unfold PacketList.addCache
  split
  · rfl
  · split <;> rfl

theorem rx_types (st : PacketList) (p : Packet) :
    (st.rx p).types = bumpTypeRx st.types p.cls := by
  show bumpTypeRx (({ st with total_rx := st.total_rx + 1 } :
    PacketList).addCache p).types p.cls = bumpTypeRx st.types p.cls
  rw [addCache_types]

theorem tx_types (st : PacketList) (p : Packet) :
    (st.tx p).types = bumpTypeTx st.types p.cls := by
  show bumpTypeTx (({ st with total_tx := st.total_tx + 1 } :
    PacketList).addCache p).types p.cls = bumpTypeTx st.types p.cls
  rw [addCache_types]

theorem rx_total_rx (st : PacketList) (p : Packet) :
    (st.rx p).total_rx = st.total_rx + 1 := by
  show (({ st with total_rx := st.total_rx + 1 } :
    PacketList).addCache p).total_rx = st.total_rx + 1
  rw [addCache_total_rx]

theorem rx_total_tx (st : PacketList) (p : Packet) :
    (st.rx p).total_tx = st.total_tx := by
  show (({ st with total_rx := st.total_rx + 1 } :
    PacketList).addCache p).total_tx = st.total_tx
  rw [addCache_total_tx]

theorem tx_total_tx (st : PacketList) (p : Packet) :
    (st.tx p).total_tx = st.total_tx + 1 := by
  show (({ st with total_tx := st.total_tx + 1 } :
    PacketList).addCache p).total_tx = st.total_tx + 1
  rw [addCache_total_tx]

theorem tx_total_rx (st : PacketList) (p : Packet) :
    (st.tx p).total_rx = st.total_rx := by
  show (({ st with total_tx := st.total_tx + 1 } :
    PacketList).addCache p).total_rx = st.total_rx
  rw [addCache_total_rx]

theorem plStep_total_rx (st : PacketList) (op : PLOp) :
    (plStep st op).total_rx = st.total_rx + (if PLOp.isRx op then 1 else 0) := by
  cases op with
  | rx p => simp [plStep, rx_total_rx, PLOp.isRx]
  | tx p => simp [plStep, tx_total_rx, PLOp.isRx]
  | add p => simp [plStep, PacketList.add, addCache_total_rx, PLOp.isRx]

theorem plStep_total_tx (st : PacketList) (op : PLOp) :
    (plStep st op).total_tx = st.total_tx + (if PLOp.isTx op then 1 else 0) := by
  cases op with
  | rx p => simp [plStep, rx_total_tx, PLOp.isTx]
  | tx p => simp [plStep, tx_total_tx, PLOp.isTx]
  | add p => simp [plStep, PacketList.add, addCache_total_tx, PLOp.isTx]

theorem plRun_total_rx (ops : List PLOp) (st : PacketList) :
    (plRun st ops).total_rx = st.total_rx + ops.countP PLOp.isRx := by
  induction ops generalizing st with
  | nil => simp [plRun]
  | cons op rest ih =>
    show (plRun (plStep st op) rest).total_rx = _
    rw [ih, plStep_total_rx, List.countP_cons]
    omega

theorem plRun_total_tx (ops : List PLOp) (st : PacketList) :
    (plRun st ops).total_tx = st.total_tx + ops.countP PLOp.isTx := by
  induction ops generalizing st with
  | nil => simp [plRun]
  | cons op rest ih =>
    show (plRun (plStep st op) rest).total_tx = _
    rw [ih, plStep_total_tx, List.countP_cons]
    omega

/-- C7: `total_rx` / `total_tx` equal the exact number of `rx` / `tx`
calls made from the empty store, independent of eviction; each `rx`
(resp. `tx`) bumps exactly the per-type rx (resp. tx) counter of the
packet's type, leaving every other per-type counter unchanged, and
ensures the type's record exists; `add` changes no total and no
per-type counter. -/
theorem counters_exact :
    (∀ ops : List PLOp,
      (plRun (emptyPL 100) ops).total_rx = ops.countP PLOp.isRx ∧
      (plRun (emptyPL 100) ops).total_tx = ops.countP PLOp.isTx) ∧
    (∀ (st : PacketList) (p : Packet) (t : PacketClass),
      tyRx (st.rx p).types t =
        (if t = p.cls then tyRx st.types t + 1 else tyRx st.types t) ∧
      tyTx (st.rx p).types t = tyTx st.types t ∧
      (st.rx p).types.any (fun e => e.1 == p.cls) = true) ∧
    (∀ (st : PacketList) (p : Packet) (t : PacketClass),
      tyTx (st.tx p).types t =
        (if t = p.cls then tyTx st.types t + 1 else tyTx st.types t) ∧
      tyRx (st.tx p).types t = tyRx st.types t ∧
      (st.tx p).types.any (fun e => e.1 == p.cls) = true) ∧
    (∀ (st : PacketList) (p : Packet),
      (st.add p).total_rx = st.total_rx ∧
      (st.add p).total_tx = st.total_tx ∧
      (st.add p).types = st.types) := by
  refine ⟨?_, ?_, ?_, ?_⟩
  · intro ops
    constructor
    · rw [plRun_total_rx]; simp [emptyPL]
    · rw [plRun_total_tx]; simp [emptyPL]
  · intro st p t
    rw [rx_types]
    exact ⟨tyRx_bumpTypeRx _ _ _, tyTx_bumpTypeRx _ _ _, bumpTypeRx_mem _ _⟩
  · intro st p t
    rw [tx_types]
    exact ⟨tyTx_bumpTypeTx _ _ _, tyRx_bumpTypeTx _ _ _, bumpTypeTx_mem _ _⟩
  · intro st p
    exact ⟨addCache_total_rx _ _, addCache_total_tx _ _, addCache_types _ _⟩

/-! ## Helper lemmas: collector dispatch -/

theorem collectorRx_all_good (p : Packet) :
    ∀ ms : List Monitor, (∀ m ∈ ms, isPacketMonitor m = true) →
      collectorRx ms p = (ms.map (fun m => (m.id, p)), none) := by
  intro ms
  induction ms with
  | nil => intro _; rfl
  | cons m rest ih =>
    intro h
    have hm : isPacketMonitor m = true := h m (List.mem_cons_self m rest)
    have hrest : ∀ x ∈ rest, isPacketMonitor x = true :=
      fun x hx => h x (List.mem_cons_of_mem m hx)
    simp only [collectorRx, hm, if_true, ih hrest, List.map_cons]

theorem collectorTx_all_good (p : Packet) :
    ∀ ms : List Monitor, (∀ m ∈ ms, isPacketMonitor m = true) →
      collectorTx ms p = (ms.map (fun m => (m.id, p)), none) := by
  intro ms
  induction ms with
  | nil => intro _; rfl
  | cons m rest ih =>
    intro h
    have hm : isPacketMonitor m = true := h m (List.mem_cons_self m rest)
    have hrest : ∀ x ∈ rest, isPacketMonitor x = true :=
      fun x hx => h x (List.mem_cons_of_mem m hx)
    simp only [collectorTx, hm, if_true, ih hrest, List.map_cons]

theorem collectorRx_first_bad (p : Packet) (b : Monitor) (post : List Monitor)
    (hb : isPacketMonitor b = false) :
    ∀ pre : List Monitor, (∀ m ∈ pre, isPacketMonitor m = true) →
      collectorRx (pre ++ b :: post) p = (pre.map (fun m => (m.id, p)), some b.id) := by
  intro pre
  induction pre with
  | nil =>
    intro _
    simp only [List.nil_append, collectorRx, hb, Bool.false_eq_true, if_false, List.map_nil]
  | cons m rest ih =>
    intro h
    have hm : isPacketMonitor m = true := h m (List.mem_cons_self m rest)
    have hrest : ∀ x ∈ rest, isPacketMonitor x = true :=
      fun x hx => h x (List.mem_cons_of_mem m hx)
    simp only [List.cons_append, collectorRx, hm, if_true, List.append_eq, ih hrest,
      List.map_cons]

theorem collectorTx_first_bad (p : Packet) (b : Monitor) (post : List Monitor)
    (hb : isPacketMonitor b = false) :
    ∀ pre : List Monitor, (∀ m ∈ pre, isPacketMonitor m = true) →
      collectorTx (pre ++ b :: post) p = (pre.map (fun m => (m.id, p)), some b.id) := by
  intro pre
  induction pre with
  | nil =>
    intro _
    simp only [List.nil_append, collectorTx, hb, Bool.false_eq_true, if_false, List.map_nil]
  | cons m rest ih =>
    intro h
    have hm : isPacketMonitor m = true := h m (List.mem_cons_self m rest)
    have hrest : ∀ x ∈ rest, isPacketMonitor x = true :=
      fun x hx => h x (List.mem_cons_of_mem m hx)
    simp only [List.cons_append, collectorTx, hm, if_true, List.append_eq, ih hrest,
      List.map_cons]

/-- C5: when every registered factory's instance is a `PacketMonitor`,
`Collector.rx` (and symmetrically `tx`) invokes each observer exactly
once, in registration order, and raises nothing; when the registration
list is `pre ++ bad :: post` with `pre` compliant and `bad` not, the
call raises the invalid-observer `TypeError` naming `bad`, the `pre`
observers have already been invoked in order, and `post` is not
reached. -/
theorem collector_dispatch (ms pre post : List Monitor) (b : Monitor) (p : Packet) :
    ((∀ m ∈ ms, isPacketMonitor m = true) →
      collectorRx ms p = (ms.map (fun m => (m.id, p)), none) ∧
      collectorTx ms p = (ms.map (fun m => (m.id, p)), none)) ∧
    ((∀ m ∈ pre, isPacketMonitor m = true) → isPacketMonitor b = false →
      collectorRx (pre ++ b :: post) p = (pre.map (fun m => (m.id, p)), some b.id) ∧
      collectorTx (pre ++ b :: post) p = (pre.map (fun m => (m.id, p)), some b.id)) := by
  constructor
  · intro h
    exact ⟨collectorRx_all_good p ms h, collectorTx_all_good p ms h⟩
  · intro h hb
    exact ⟨collectorRx_first_bad p b post hb pre h,
      collectorTx_first_bad p b post hb pre h⟩

/-- Witness for C5: two compliant observers dispatch in order; with a
non-compliant second observer the first is invoked and the third is not. -/
theorem collector_dispatch_witness :
    (∀ m ∈ [(⟨1, true, true⟩ : Monitor), ⟨2, true, true⟩], isPacketMonitor m = true) ∧
    (∀ m ∈ [(⟨1, true, true⟩ : Monitor)], isPacketMonitor m = true) ∧
    isPacketMonitor ⟨2, true, false⟩ = false ∧
    collectorRx [⟨1, true, true⟩, ⟨2, true, true⟩] ⟨0, .messagePacket, 0, none, 0, 0⟩ =
      ([(1, ⟨0, .messagePacket, 0, none, 0, 0⟩), (2, ⟨0, .messagePacket, 0, none, 0, 0⟩)], none) ∧
    collectorTx [⟨1, true, true⟩, ⟨2, true, false⟩, ⟨3, true, true⟩]
      ⟨0, .messagePacket, 0, none, 0, 0⟩ =
      ([(1, ⟨0, .messagePacket, 0, none, 0, 0⟩)], some 2) := by
  have h := collector_dispatch [⟨1, true, true⟩, ⟨2, true, true⟩] [⟨1, true, true⟩]
    [⟨3, true, true⟩] ⟨2, true, false⟩ ⟨0, .messagePacket, 0, none, 0, 0⟩
  refine ⟨by decide, by decide, by decide, (h.1 (by decide)).1, ?_⟩
  exact (h.2 (by decide) (by decide)).2

/-! ## Helper lemmas: cache eviction order -/

theorem any_key_iff_mem (d : List (Nat × Packet)) (k : Nat) :
    d.any (fun e => e.1 == k) = true ↔ k ∈ d.map Prod.fst := by
  rw [List.any_eq_true]
  simp only [List.mem_map, beq_iff_eq]

theorem filter_key_not_mem (d : List (Nat × Packet)) (k : Nat) :
    k ∉ (d.filter (fun e => !(e.1 == k))).map Prod.fst := by
  intro hmem
  rcases List.mem_map.mp hmem with ⟨e, he, hk⟩
  have hp := List.of_mem_filter he
  rw [hk] at hp
  simp at hp

theorem addCache_nodup (st : PacketList) (p : Packet)
    (h : (st.packets.map Prod.fst).Nodup) :
    ((st.addCache p).packets.map Prod.fst).Nodup := by
  unfold PacketList.addCache
  split
  · rw [List.map_append]
    refine List.nodup_append.mpr ⟨?_, by simp, ?_⟩
    · exact List.Nodup.sublist ((List.filter_sublist _).map Prod.fst) h
    · intro a ha hb
      simp only [List.map_cons, List.map_nil, List.mem_singleton] at hb
      subst hb
      exact filter_key_not_mem st.packets p.key ha
  · rename_i hmem
    have hnot : p.key ∉ st.packets.map Prod.fst :=
      fun hk => hmem ((any_key_iff_mem _ _).mpr hk)
    split
    · rw [List.map_append]
      refine List.nodup_append.mpr ⟨?_, by simp, ?_⟩
      · exact List.Nodup.sublist ((List.tail_sublist _).map Prod.fst) h
      · intro a ha hb
        simp only [List.map_cons, List.map_nil, List.mem_singleton] at hb
        subst hb
        exact hnot (List.Sublist.mem ha ((List.tail_sublist _).map Prod.fst))
    · rw [List.map_append]
      refine List.nodup_append.mpr ⟨h, by simp, ?_⟩
      intro a ha hb
      simp only [List.map_cons, List.map_nil, List.mem_singleton] at hb
      subst hb
      exact hnot ha

theorem plRun_nodup_keys (ops : List PLOp) (st : PacketList)
    (h : (st.packets.map Prod.fst).Nodup) :
    ((plRun st ops).packets.map Prod.fst).Nodup := by
  induction ops generalizing st with
  | nil => exact h
  | cons op rest ih =>
    show ((plRun (plStep st op) rest).packets.map Prod.fst).Nodup
    apply ih
    rw [plStep_packets]
    exact addCache_nodup _ _ h

theorem length_filter_nodup (d : List (Nat × Packet)) (k : Nat)
    (hnd : (d.map Prod.fst).Nodup) (hmem : k ∈ d.map Prod.fst) :
    (d.filter (fun e => !(e.1 == k))).length + 1 = d.length := by
  induction d with
  | nil => simp at hmem
  | cons e rest ih =>
    rw [List.map_cons, List.nodup_cons] at hnd
    by_cases hk : e.1 = k
    · have hall : ∀ x ∈ rest, (!(x.1 == k)) = true := by
        intro x hx
        have hxm : x.1 ∈ rest.map Prod.fst := List.mem_map_of_mem Prod.fst hx
        simp only [Bool.not_eq_true', beq_eq_false_iff_ne, ne_eq]
        intro hxk
        rw [hxk, ← hk] at hxm
        exact hnd.1 hxm
      have h1 : List.filter (fun e => !(e.1 == k)) (e :: rest) =
          List.filter (fun e => !(e.1 == k)) rest := by
        simp [List.filter_cons, hk]
      rw [h1, List.filter_eq_self.mpr hall, List.length_cons]
    · have h1 : List.filter (fun e => !(e.1 == k)) (e :: rest) =
          e :: List.filter (fun e => !(e.1 == k)) rest := by
        simp [List.filter_cons, hk]
      have hmem2 : k ∈ rest.map Prod.fst := by
        rcases List.mem_cons.mp hmem with h2 | h2
        · exact absurd h2.symm hk
        · exact h2
      rw [h1]
      simp only [List.length_cons]
      rw [ih hnd.2 hmem2]

theorem head_not_mem_drop_one {ks : List Nat} (hnd : ks.Nodup) {k1 : Nat}
    (hk1 : ks.head? = some k1) : k1 ∉ ks.drop 1 := by
  cases ks with
  | nil => simp at hk1
  | cons a l =>
    simp only [List.head?_cons, Option.some_inj] at hk1
    subst hk1
    rw [List.drop_one, List.tail_cons]
    exact (List.nodup_cons.mp hnd).1

theorem addCache_present (st : PacketList) (p : Packet)
    (hnd : (st.packets.map Prod.fst).Nodup)
    (hmem : p.key ∈ st.packets.map Prod.fst) :
    (st.addCache p).packets.length = st.packets.length ∧
    (st.addCache p).packets.getLast? = some (p.key, p) := by
  have hany : st.packets.any (fun e => e.1 == p.key) = true :=
    (any_key_iff_mem _ _).mpr hmem
  unfold PacketList.addCache
  rw [if_pos hany]
  constructor
  · simp only [List.length_append, List.length_cons, List.length_nil]
    have := length_filter_nodup st.packets p.key hnd hmem
    omega
  · simp

theorem addCache_evict (st : PacketList) (p : Packet)
    (hany : st.packets.any (fun e => e.1 == p.key) = false)
    (hfull : st.packets.length = st.maxlen) :
    (st.addCache p).packets = st.packets.tail ++ [(p.key, p)] := by
  unfold PacketList.addCache
  rw [if_neg (by simp [hany]), if_pos (by simp [hfull])]

theorem addCache_append (st : PacketList) (p : Packet)
    (hany : st.packets.any (fun e => e.1 == p.key) = false)
    (hroom : st.packets.length ≠ st.maxlen) :
    (st.addCache p).packets = st.packets ++ [(p.key, p)] := by
  unfold PacketList.addCache
  rw [if_neg (by simp [hany]), if_neg (by simp [hroom])]

theorem plRun_fill (ops : List PLOp) (st : PacketList)
    (hnd : (st.packets.map Prod.fst ++ ops.map (fun o => o.packet.key)).Nodup)
    (hlen : st.packets.length + ops.length ≤ st.maxlen) :
    (plRun st ops).packets.map Prod.fst =
      st.packets.map Prod.fst ++ ops.map (fun o => o.packet.key) := by
  induction ops generalizing st with
  | nil => simp [plRun]
  | cons op rest ih =>
    show (plRun (plStep st op) rest).packets.map Prod.fst = _
    have hknot : op.packet.key ∉ st.packets.map Prod.fst := by
      intro hk
      rcases List.nodup_append.mp hnd with ⟨-, -, hdisj⟩
      exact hdisj hk (by simp)
    have hany : st.packets.any (fun e => e.1 == op.packet.key) = false :=
      Bool.eq_false_iff.mpr (fun ht => hknot ((any_key_iff_mem _ _).mp ht))
    have hroom : st.packets.length ≠ st.maxlen := by
      simp only [List.length_cons] at hlen
      omega
    have hpk : (plStep st op).packets = st.packets ++ [(op.packet.key, op.packet)] := by
      rw [plStep_packets]
      exact addCache_append st op.packet hany hroom
    have hnd2 : ((plStep st op).packets.map Prod.fst ++
        rest.map (fun o => o.packet.key)).Nodup := by
      rw [hpk, List.map_append, List.append_assoc]
      simpa using hnd
    have hlen2 : (plStep st op).packets.length + rest.length ≤ (plStep st op).maxlen := by
      rw [hpk, plStep_maxlen]
      simp only [List.length_append, List.length_cons, List.length_nil,
        List.length_cons] at hlen ⊢
      omega
    rw [ih (plStep st op) hnd2 hlen2, hpk, List.map_append, List.append_assoc]
    rfl

theorem plRun_overflow (c : Nat) (ops : List PLOp)
    (hc : 0 < c) (hlen : ops.length = c + 1)
    (hnd : (ops.map (fun o => o.packet.key)).Nodup) :
    (plRun (emptyPL c) ops).packets.map Prod.fst =
      (ops.map (fun o => o.packet.key)).drop 1 := by
  have hne : ops ≠ [] := by
    intro h
    rw [h] at hlen
    simp at hlen
  have hsplit : ops.dropLast ++ [ops.getLast hne] = ops :=
    List.dropLast_append_getLast hne
  have hleninit : ops.dropLast.length = c := by
    have := List.length_dropLast ops
    omega
  have hkeys : ops.map (fun o => o.packet.key) =
      ops.dropLast.map (fun o => o.packet.key) ++ [(ops.getLast hne).packet.key] := by
    conv_lhs => rw [← hsplit]
    rw [List.map_append]
    rfl
  have hndinit : ((emptyPL c).packets.map Prod.fst ++
      ops.dropLast.map (fun o => o.packet.key)).Nodup := by
    have hsub : (ops.dropLast.map (fun o => o.packet.key)).Sublist
        (ops.map (fun o => o.packet.key)) :=
      (List.dropLast_sublist ops).map _
    simpa [emptyPL] using hnd.sublist hsub
  have hfill := plRun_fill ops.dropLast (emptyPL c) hndinit
    (by simp [emptyPL, hleninit])
  have hkeys1 : (plRun (emptyPL c) ops.dropLast).packets.map Prod.fst =
      ops.dropLast.map (fun o => o.packet.key) := by
    simpa [emptyPL] using hfill
  have hlen1 : (plRun (emptyPL c) ops.dropLast).packets.length = c := by
    have h2 := congrArg List.length hkeys1
    simp only [List.length_map] at h2
    omega
  have hmax1 : (plRun (emptyPL c) ops.dropLast).maxlen = c := by
    rw [plRun_maxlen]
    rfl
  have hklast : (ops.getLast hne).packet.key ∉
      ops.dropLast.map (fun o => o.packet.key) := by
    rw [hkeys] at hnd
    rcases List.nodup_append.mp hnd with ⟨-, -, hdisj⟩
    intro hk
    exact hdisj hk (by simp)
  have hany : (plRun (emptyPL c) ops.dropLast).packets.any
      (fun e => e.1 == (ops.getLast hne).packet.key) = false := by
    apply Bool.eq_false_iff.mpr
    intro ht
    have := (any_key_iff_mem _ _).mp ht
    rw [hkeys1] at this
    exact hklast this
  have hrun : plRun (emptyPL c) ops =
      plStep (plRun (emptyPL c) ops.dropLast) (ops.getLast hne) := by
    conv_lhs => rw [← hsplit]
    unfold plRun
    rw [List.foldl_append]
    rfl
  rw [hrun, plStep_packets,
    addCache_evict _ _ hany (by rw [hlen1, hmax1]),
    List.map_append, List.map_tail, hkeys1, hkeys,
    List.drop_append_of_le_length (by rw [List.length_map, hleninit]; omega),
    List.drop_one]
  rfl

/-- C2: the cache implements recency-refresh FIFO eviction.  Inserting a
packet whose key is already cached (any of `rx`/`tx`/`add`, which all
share `_add`) keeps the cache size and moves that key to the
most-recent end; cache key lists of reachable states never hold
duplicates; and inserting `C+1` packets with pairwise-distinct keys into
the empty store of capacity `C > 0` leaves exactly the last `C` keys:
the first key is evicted and the remaining `C` keys are all present. -/
theorem recency_refresh_fifo :
    (∀ (st : PacketList) (op : PLOp),
      (st.packets.map Prod.fst).Nodup →
      op.packet.key ∈ st.packets.map Prod.fst →
      (plStep st op).packets.length = st.packets.length ∧
      (plStep st op).packets.getLast? = some (op.packet.key, op.packet)) ∧
    (∀ (c : Nat) (ops : List PLOp),
      ((plRun (emptyPL c) ops).packets.map Prod.fst).Nodup) ∧
    (∀ (c : Nat) (ops : List PLOp),
      0 < c → ops.length = c + 1 →
      (ops.map (fun o => o.packet.key)).Nodup →
      (plRun (emptyPL c) ops).packets.map Prod.fst =
        (ops.map (fun o => o.packet.key)).drop 1 ∧
      (∀ k1, (ops.map (fun o => o.packet.key)).head? = some k1 →
        k1 ∉ (plRun (emptyPL c) ops).packets.map Prod.fst) ∧
      (∀ k, k ∈ (ops.map (fun o => o.packet.key)).drop 1 →
        k ∈ (plRun (emptyPL c) ops).packets.map Prod.fst)) := by
  refine ⟨?_, ?_, ?_⟩
  · intro st op hnd hmem
    rw [plStep_packets]
    exact addCache_present st op.packet hnd hmem
  · intro c ops
    exact plRun_nodup_keys ops (emptyPL c) (by simp [emptyPL])
  · intro c ops hc hlen hnd
    have hdrop := plRun_overflow c ops hc hlen hnd
    refine ⟨hdrop, ?_, ?_⟩
    · intro k1 hk1 hmem
      rw [hdrop] at hmem
      exact head_not_mem_drop_one hnd hk1 hmem
    · intro k hk
      rw [hdrop]
      exact hk

/-- Witness for C2: refreshing key 0 in a two-entry cache keeps size 2
and moves it last; three distinct keys through a capacity-2 store leave
keys 1 and 2 with key 0 evicted. -/
theorem recency_refresh_fifo_witness :
    (((⟨2, [(0, ⟨0, .messagePacket, 0, none, 0, 0⟩),
            (1, ⟨1, .messagePacket, 1, none, 0, 0⟩)], [], 0, 0⟩ :
        PacketList).packets.map Prod.fst).Nodup ∧
      (0 : Nat) ∈ ((⟨2, [(0, ⟨0, .messagePacket, 0, none, 0, 0⟩),
            (1, ⟨1, .messagePacket, 1, none, 0, 0⟩)], [], 0, 0⟩ :
        PacketList).packets.map Prod.fst) ∧
      (plStep ⟨2, [(0, ⟨0, .messagePacket, 0, none, 0, 0⟩),
            (1, ⟨1, .messagePacket, 1, none, 0, 0⟩)], [], 0, 0⟩
          (PLOp.add ⟨0, .messagePacket, 7, none, 0, 0⟩)).packets.length = 2 ∧
      (plStep ⟨2, [(0, ⟨0, .messagePacket, 0, none, 0, 0⟩),
            (1, ⟨1, .messagePacket, 1, none, 0, 0⟩)], [], 0, 0⟩
          (PLOp.add ⟨0, .messagePacket, 7, none, 0, 0⟩)).packets.getLast? =
        some (0, ⟨0, .messagePacket, 7, none, 0, 0⟩)) ∧
    ((([PLOp.add ⟨0, .messagePacket, 0, none, 0, 0⟩,
        PLOp.add ⟨1, .messagePacket, 1, none, 0, 0⟩,
        PLOp.add ⟨2, .messagePacket, 2, none, 0, 0⟩].map
          (fun o => o.packet.key)).Nodup) ∧
      (plRun (emptyPL 2) [PLOp.add ⟨0, .messagePacket, 0, none, 0, 0⟩,
        PLOp.add ⟨1, .messagePacket, 1, none, 0, 0⟩,
        PLOp.add ⟨2, .messagePacket, 2, none, 0, 0⟩]).packets.map Prod.fst =
        [1, 2]) := by
  constructor
  · have h := recency_refresh_fifo.1
      ⟨2, [(0, ⟨0, .messagePacket, 0, none, 0, 0⟩),
            (1, ⟨1, .messagePacket, 1, none, 0, 0⟩)], [], 0, 0⟩
      (PLOp.add ⟨0, .messagePacket, 7, none, 0, 0⟩) (by decide) (by decide)
    exact ⟨by decide, by decide, h.1, h.2⟩
  · have h := (recency_refresh_fifo.2.2 2
      [PLOp.add ⟨0, .messagePacket, 0, none, 0, 0⟩,
       PLOp.add ⟨1, .messagePacket, 1, none, 0, 0⟩,
       PLOp.add ⟨2, .messagePacket, 2, none, 0, 0⟩]
      (by decide) (by decide) (by decide)).1
    exact ⟨by decide, by rw [h]; rfl⟩

/-! ## Locking surface and serialized concurrent tx -/

theorem trRun_tx_distinct (ps : List Packet) :
    ∀ st : PacketTrack,
      (∀ k ∈ ps.map Packet.msgNo, k ∉ st.data.map Prod.fst) →
      (ps.map Packet.msgNo).Nodup →
      (trRun st (ps.map TrOp.tx)).data.length = st.data.length + ps.length := by
  induction ps with
  | nil =>
    intro st h1 h2
    simp [trRun]
  | cons p rest ih =>
    intro st h1 h2
    show (trRun (st.tx p) (rest.map TrOp.tx)).data.length =
      st.data.length + (p :: rest).length
    have hknot : p.msgNo ∉ st.data.map Prod.fst := h1 p.msgNo (by simp)
    have hany : st.data.any (fun e => e.1 == p.msgNo) = false :=
      Bool.eq_false_iff.mpr (fun ht => hknot ((any_key_iff_mem _ _).mp ht))
    have hdata : (st.tx p).data =
        st.data ++ [(p.msgNo, { p with send_count := 0 })] := by
      show dictInsert st.data p.msgNo { p with send_count := 0 } = _
      unfold dictInsert
      rw [if_neg (by simp [hany])]
    rw [List.map_cons, List.nodup_cons] at h2
    have h1rest : ∀ k ∈ rest.map Packet.msgNo, k ∉ (st.tx p).data.map Prod.fst := by
      intro k hk hmem
      rw [hdata, List.map_append] at hmem
      rcases List.mem_append.mp hmem with hm | hm
      · exact h1 k (List.mem_cons_of_mem _ hk) hm
      · simp only [List.map_cons, List.map_nil, List.mem_singleton] at hm
        subst hm
        exact h2.1 hk
    have := ih (st.tx p) h1rest h2.2
    rw [this, hdata]
    simp only [List.length_append, List.length_cons, List.length_nil]
    omega

/-- C9 counterexample: it is false that every public operation of the
three stores acquires its store's lock — `PacketList.copy`,
`PacketList.__len__`, the `maxlen` accessor and all three
`PacketCollector` methods carry no `@wrapt.synchronized(lock)`
decorator; `PacketList.copy` is the explicit witness. -/
theorem locking_surface_counterexample :
    acquiresLock PublicOp.plCopy = false ∧
    ¬ (∀ op : PublicOp, acquiresLock op = true) :=
  ⟨rfl, fun h => Bool.false_ne_true (h PublicOp.plCopy)⟩

/-- C9 amended: every public operation of the three stores except
`PacketList.copy`, `PacketList.maxlen`, `PacketList.__len__` and the
(entirely lock-free) `PacketCollector` methods acquires its store's
lock; and since `PacketTrack.tx` runs under the tracker lock, any
serialization (interleaving) of N `tx` calls with pairwise-distinct
message ids into the empty tracker yields exactly N tracked entries. -/
theorem locking_surface_amended :
    (∀ op : PublicOp,
      op ≠ .plCopy → op ≠ .plMaxlen → op ≠ .plLen →
      op ≠ .pcRegister → op ≠ .pcRx → op ≠ .pcTx →
      acquiresLock op = true) ∧
    (∀ ps : List Packet, (ps.map Packet.msgNo).Nodup →
      (trRun trEmpty (ps.map TrOp.tx)).data.length = ps.length) := by
  constructor
  · intro op h1 h2 h3 h4 h5 h6
    cases op <;> simp_all [acquiresLock]
  · intro ps hnd
    have := trRun_tx_distinct ps trEmpty (by simp [trEmpty]) hnd
    simpa [trEmpty] using this

/-- Witness for the amended C9 at `PacketTrack.rx` and two distinct ids. -/
theorem locking_surface_amended_witness :
    acquiresLock PublicOp.ptRx = true ∧
    (([(⟨1, .messagePacket, 4, none, 0, 0⟩ : Packet),
       ⟨2, .messagePacket, 9, none, 0, 0⟩].map Packet.msgNo).Nodup ∧
     (trRun trEmpty ([(⟨1, .messagePacket, 4, none, 0, 0⟩ : Packet),
       ⟨2, .messagePacket, 9, none, 0, 0⟩].map TrOp.tx)).data.length = 2) := by
  refine ⟨locking_surface_amended.1 PublicOp.ptRx (by decide) (by decide)
    (by decide) (by decide) (by decide) (by decide), by decide, ?_⟩
  exact locking_surface_amended.2
    [⟨1, .messagePacket, 4, none, 0, 0⟩, ⟨2, .messagePacket, 9, none, 0, 0⟩]
    (by decide)

end Aprsd
